import Mathlib

/-!
Shallow embedding of the securefs virtual-filesystem core: the Windows
platform helpers in `sources/win.cpp` (FILETIME conversions) and the VFS
operation surface in `sources/operations.cpp` (`internal::open_base_dir`,
`internal::open_all`, `internal::create`, `internal::remove`,
`operations::{create, open, write, unlink, rmdir, mkdir, chmod, symlink,
readlink, getattr}` and the `COMMON_CATCH_BLOCK` error dispatch).

Machine integers are modelled as `Nat`/`Int` with explicit reduction
modulo `2 ^ 32` (`DWORD`) and `2 ^ 64` (`long long`, two's complement)
where overflow matters.  C++ `/` and `%` on signed integers truncate
toward zero and are modelled by `Int.tdiv` / `Int.tmod`.

Components of the repository that `operations.cpp` calls but whose
definitions are not part of the given sources (the `FileTable`, the
`FileBase` variants `RegularFile` / `Directory` / `Symlink`, and `split`)
are modelled from the specification; each such definition carries a
doc comment starting with `Modelled from the spec:`.
-/

/-! ## Error numbers

POSIX error numbers as used by the reference implementation (the values
shared by MSVC and glibc, except `ENOTEMPTY` which is the MSVC value 41;
only its identity, not its numeric value, matters to the development). -/

def EPERM : Nat := 1
def ENOENT : Nat := 2
def EEXIST : Nat := 17
def ENOTDIR : Nat := 20
def EINVAL : Nat := 22
def EROFS : Nat := 30
def ENOTEMPTY : Nat := 41

/-! File-type bits of `st_mode` (`sys/stat.h`). -/

def S_IFMT : Nat := 0xF000
def S_IFDIR : Nat := 0x4000
def S_IFREG : Nat := 0x8000
def S_IFLNK : Nat := 0xA000

/-! Open flags (`fcntl.h`, the MSVC values used by the Windows build). -/

def O_WRONLY : Nat := 1
def O_RDWR : Nat := 2
def O_APPEND : Nat := 8
def O_TRUNC : Nat := 0x200

/-! ## FILETIME conversions (`sources/win.cpp`, lines 26-42)

`filetime_to_unix_time` and `unix_time_to_filetime` convert between a
Windows `FILETIME` (a pair of 32-bit `DWORD`s holding a count of
100-nanosecond ticks since 1601-01-01) and a `fuse_timespec`.  The C++
arithmetic is carried out in `long long`; every intermediate result is
therefore reduced into the signed 64-bit range by `wrap64`. -/

/-- Two's-complement wrap of an integer into the signed 64-bit range
`[-2 ^ 63, 2 ^ 63)`, the value a C++ `long long` holds. -/
def wrap64 (n : Int) : Int := (n + 2 ^ 63) % 2 ^ 64 - 2 ^ 63

/-- Conversion of an integer to a 32-bit `DWORD`, i.e. reduction modulo
`2 ^ 32` (C++ signed-to-unsigned conversion). -/
def toDWORD (n : Int) : Nat := (n % 2 ^ 32).toNat

/-- The `fuse_timespec` structure: seconds and nanoseconds. -/
structure FuseTimespec where
  tv_sec : Int
  tv_nsec : Int
deriving DecidableEq

/-- The Windows `FILETIME` structure: low and high `DWORD` of a 64-bit
count of 100-nanosecond ticks since the Windows epoch. -/
structure FILETIME where
  dwLowDateTime : Nat
  dwHighDateTime : Nat
deriving DecidableEq

/-- Embedding of `unix_time_to_filetime` (win.cpp line 35):
`ll = t->tv_sec * 10000000LL + t->tv_nsec / 100LL + 116444736000000000LL`,
low word `(DWORD)ll`, high word `(DWORD)(ll >> 32)`. -/
def unix_time_to_filetime (t : FuseTimespec) : FILETIME :=
  let ll : Int :=
    wrap64 (wrap64 (wrap64 (t.tv_sec * 10000000) + t.tv_nsec.tdiv 100)
      + 116444736000000000)
  { dwLowDateTime := toDWORD ll
    dwHighDateTime := toDWORD (ll / 2 ^ 32) }

/-- Embedding of `filetime_to_unix_time` (win.cpp line 26):
`ll = ((long long)ft->dwHighDateTime << 32) + ft->dwLowDateTime - 116444736000000000LL`,
`tv_sec = ll / 10000000`, `tv_nsec = (ll % 10000000) * 100` (C++ `/` and
`%` truncate toward zero). -/
def filetime_to_unix_time (ft : FILETIME) : FuseTimespec :=
  let ll : Int :=
    wrap64 (wrap64 (wrap64 ((ft.dwHighDateTime : Int) * 2 ^ 32)
      + (ft.dwLowDateTime : Int)) - 116444736000000000)
  { tv_sec := ll.tdiv 10000000
    tv_nsec := ll.tmod 10000000 * 100 }

/-! ## Data model -/

/-- The three file flavors, `FileBase::REGULAR_FILE / DIRECTORY / SYMLINK`. -/
inductive FType where
  | regular
  | directory
  | symlink
deriving DecidableEq

/-- Modelled from the spec: a `FileBase` object (§3, §4.3, §4.5) — the
common metadata header (`uid`, `gid`, `mode`, `nlink`) together with the
flavor-specific payload: the decrypted byte content of a `RegularFile`,
the UTF-8 target of a `Symlink`, and the name → (id, type) index of a
`Directory`.  One structure with a `ftype` discriminator stands for the
closed three-leaf class hierarchy; fields not applicable to a flavor
stay at their defaults. -/
structure FileBase where
  ftype : FType
  uid : Nat := 0
  gid : Nat := 0
  mode : Nat := 0
  nlink : Nat := 0
  data : List Nat := []
  target : String := ""
  entries : List (String × Nat × FType) := []
deriving DecidableEq

/-- Modelled from the spec: the mounted filesystem (`operations::FileSystem`):
the `FileTable` (§4.4) as an association list from object id to object — the
spec guarantees at most one live instance per id — plus the root id, the
read-only flag and a source of fresh ids standing for the CSPRNG. -/
structure FileSystem where
  table : List (Nat × FileBase)
  root_id : Nat
  readonly : Bool
  fresh : Nat
deriving DecidableEq

/-- Applies `f` to the object stored under `id`, leaving everything else
unchanged (mutation of a live `FileBase` through a guard). -/
def updateObj (fs : FileSystem) (id : Nat) (f : FileBase → FileBase) : FileSystem :=
  { fs with table := fs.table.map (fun p => if p.1 = id then (p.1, f p.2) else p) }

/-- The recorded flavor of the object stored under `id`. -/
def getType (fs : FileSystem) (id : Nat) : Option FType :=
  (fs.table.lookup id).map FileBase.ftype

/-- The `mode` header field of the object stored under `id` (the guard in
the C++ code always holds a live object, so the default is never read). -/
def get_mode (fs : FileSystem) (id : Nat) : Nat :=
  ((fs.table.lookup id).map FileBase.mode).getD 0

/-- The `stat` structure filled by `FileBase::stat`; modelled from the
spec (§4.3): the metadata header fields. -/
structure FuseStat where
  st_mode : Nat
  st_uid : Nat
  st_gid : Nat
  st_nlink : Nat
  st_size : Nat
deriving DecidableEq

/-- Modelled from the spec: `FileBase::stat` copies the metadata header
into the `stat` output. -/
def FileBase.statOf (fb : FileBase) : FuseStat :=
  { st_mode := fb.mode, st_uid := fb.uid, st_gid := fb.gid
    st_nlink := fb.nlink, st_size := fb.data.length }

/-- Modelled from the spec: `RegularFile::write` through the block stream
(§4.2): bytes `[off, off + buf.length)` are replaced by `buf`, the gap is
zero-filled when `off` lies past the end, and content outside the range
is unchanged. -/
def writeBytes (data : List Nat) (off : Nat) (buf : List Nat) : List Nat :=
  data.take off ++ List.replicate (off - data.length) 0 ++ buf
    ++ data.drop (off + buf.length)

/-- Modelled from the spec: `RegularFile::truncate` via `resize` (§4.2):
shrinks by dropping, grows by zero blocks. -/
def truncateBytes (data : List Nat) (size : Nat) : List Nat :=
  data.take size ++ List.replicate (size - data.length) 0

/-- Modelled from the spec: `split(path, '/')` (§4.7) — split the path at
every separator and discard the empty segments produced by leading,
trailing or doubled slashes.  `splitSegments` is the raw splitter. -/
def splitSegments (separator : Char) : List Char → List Char → List String
  | [], acc => [String.mk acc.reverse]
  | c :: rest, acc =>
    if c = separator then
      String.mk acc.reverse :: splitSegments separator rest []
    else
      splitSegments separator rest (c :: acc)

/-- Modelled from the spec: path splitting, see `splitSegments`. -/
def split (path : String) (separator : Char) : List String :=
  (splitSegments separator path.data []).filter (fun s => s != "")

/-! ## The internal layer (`operations.cpp`, namespace `internal`) -/

/-- Modelled from the spec: `FileTable::open_as(id, type)` (§4.4) under the
table mutex (`internal::table_open_as`).  Fails `NOT_FOUND` when the host
files are absent and `TYPE_MISMATCH` (surfaced as `EINVAL`, §7) when the
on-disk flavor disagrees with `type`; on success the handle (here: the id)
is returned. -/
def table_open_as (fs : FileSystem) (id : Nat) (t : FType) : Except Nat Nat :=
  match fs.table.lookup id with
  | none => .error ENOENT
  | some fb => if fb.ftype = t then .ok id else .error EINVAL

/-- Modelled from the spec: `Directory::get_entry` (§4.5) under the object
mutex (`internal::dir_get_entry`): look a name up in the directory stored
under `dirId`. -/
def dir_get_entry (fs : FileSystem) (dirId : Nat) (name : String) :
    Option (Nat × FType) :=
  match fs.table.lookup dirId with
  | some fb => fb.entries.lookup name
  | none => none

/-- The loop body of `internal::open_base_dir` (operations.cpp lines
1071-1079): for each component, look it up in the current directory —
`ENOENT` if absent, `ENOTDIR` if its recorded type is not `DIRECTORY` —
then close the current directory and open the child. -/
def walk (fs : FileSystem) : Nat → List String → Except Nat Nat
  | cur, [] => .ok cur
  | cur, c :: rest =>
    match dir_get_entry fs cur c with
    | none => .error ENOENT
    | some (id, t) =>
      if t ≠ FType.directory then .error ENOTDIR
      else
        match table_open_as fs id t with
        | .error e => .error e
        | .ok child => walk fs child rest

/-- Embedding of `internal::open_base_dir` (operations.cpp lines 1056-1082):
open the root directory; an empty component list names the root itself
(empty last component); otherwise run the resolution loop over all
non-final components and return the final directory together with the
last component. -/
def open_base_dir (fs : FileSystem) (components : List String) :
    Except Nat (Nat × String) :=
  match table_open_as fs fs.root_id FType.directory with
  | .error e => .error e
  | .ok root =>
    if components.isEmpty then .ok (root, "")
    else
      match walk fs root components.dropLast with
      | .error e => .error e
      | .ok d => .ok (d, components.getLastD "")

/-- Embedding of `internal::open_all` (operations.cpp lines 1084-1098):
resolve the base directory; an empty last component means the root itself;
otherwise look the last component up (`ENOENT` if absent) and open the
named object with its recorded type. -/
def open_all (fs : FileSystem) (components : List String) : Except Nat Nat :=
  match open_base_dir fs components with
  | .error e => .error e
  | .ok (dirId, last) =>
    if last = "" then .ok dirId
    else
      match dir_get_entry fs dirId last with
      | none => .error ENOENT
      | some (id, t) => table_open_as fs id t

/-- Embedding of `internal::create` (operations.cpp lines 1100-1124):
resolve the base directory, generate a fresh id, create the backing
object through `FileTable::create_as` (nlink = 0; the host files must not
already exist — a CSPRNG id collision surfaces as the host `EEXIST`),
then add the directory entry.  When `add_entry` returns false (name
already present, no change — spec §4.5) the new object is `unlink()`ed
(nlink = 0) and `EEXIST` is thrown; the guards of both the new object and
the base directory are then released, and the `FileTable` purges the
unlinked object (nlink == 0 at last close deletes the host files,
spec §3 lifecycle). -/
def internal_create (fs : FileSystem) (components : List String) (t : FType) :
    Except Nat Nat × FileSystem :=
  match open_base_dir fs components with
  | .error e => (.error e, fs)
  | .ok (dirId, last) =>
    let id := fs.fresh
    if id ∈ fs.table.map Prod.fst then (.error EEXIST, fs)
    else
      let fs1 : FileSystem :=
        { fs with table := (id, ({ ftype := t } : FileBase)) :: fs.table
                  fresh := fs.fresh + 1 }
      match dir_get_entry fs dirId last with
      | some _ =>
        (.error EEXIST, { fs1 with table := fs1.table.filter (fun p => p.1 ≠ id) })
      | none =>
        (.ok id,
          updateObj fs1 dirId
            (fun d => { d with entries := d.entries ++ [(last, (id, t))] }))

/-- Embedding of `internal::remove` (operations.cpp lines 1126-1146):
resolve the base directory; an empty last component (the root itself)
fails `EPERM`; remove the directory entry (`ENOENT` when the name is
absent), then open the removed object and `unlink()` it, whereupon the
guard's release purges it from the table (nlink == 0 at last close).
Modelled from the spec: `Directory::remove_entry` is not part of the
given sources; scenario 3 of §8 specifies that removing an entry that
names a non-empty directory fails its structural precondition, signalled
as `ENOTEMPTY`, before any change is made. -/
def internal_remove (fs : FileSystem) (components : List String) :
    Except Nat Unit × FileSystem :=
  match open_base_dir fs components with
  | .error e => (.error e, fs)
  | .ok (dirId, last) =>
    if last = "" then (.error EPERM, fs)
    else
      match dir_get_entry fs dirId last with
      | none => (.error ENOENT, fs)
      | some (id, t) =>
        let notEmptyDir : Bool :=
          match fs.table.lookup id with
          | some fb => decide (fb.ftype = FType.directory) && !fb.entries.isEmpty
          | none => false
        if notEmptyDir then (.error ENOTEMPTY, fs)
        else
          let fs1 :=
            updateObj fs dirId
              (fun d => { d with entries := d.entries.filter (fun e => e.1 ≠ last) })
          match table_open_as fs1 id t with
          | .error e => (.error e, fs1)
          | .ok _ => (.ok (), { fs1 with table := fs1.table.filter (fun p => p.1 ≠ id) })

/-- Embedding of `internal::is_readonly` (operations.cpp lines 1148-1151):
the `FileTable`'s read-only flag. -/
def is_readonly (fs : FileSystem) : Bool := fs.readonly

/-! ## Exception dispatch (`COMMON_CATCH_BLOCK`) -/

/-- The exception kinds distinguished by the catch cascade of
`COMMON_CATCH_BLOCK` (operations.cpp lines 1169-1172): an `OSException`
carrying an error number, any other `ExceptionBase` subclass carrying its
`error_number()`, and every remaining `std::exception` with its `what()`
message. -/
inductive CppExn where
  | osException (errno : Nat)
  | exceptionBase (errno : Nat)
  | generalException (what : String)
deriving DecidableEq

/-- Embedding of `internal::log_error` (operations.cpp lines 1153-1157):
the exception is printed to stderr and `-error_number()` returned. -/
def log_error (errno : Nat) : Int := -(errno : Int)

/-- Embedding of `internal::log_general_error` (operations.cpp lines
1159-1163): the unexpected exception is printed to stderr and `-EPERM`
returned. -/
def log_general_error (_what : String) : Int := -(EPERM : Int)

/-- Embedding of the `COMMON_CATCH_BLOCK` cascade (operations.cpp lines
1169-1172): `OSException` maps to `-error_number()`, other
`ExceptionBase`s go through `internal::log_error`, and every remaining
`std::exception` through `internal::log_general_error`. -/
def common_catch_block : CppExn → Int
  | .osException e => -(e : Int)
  | .exceptionBase e => log_error e
  | .generalException w => log_general_error w

/-- An operation body at the top of the operations layer: it either
returns a result or escapes with an exception which the catch cascade
translates. -/
def run_vfs_op (body : Except CppExn Int) : Int :=
  match body with
  | .ok r => r
  | .error e => common_catch_block e

/-! ## The operations layer (`operations.cpp`, namespace `operations`)

Each embedding returns the fuse return code together with the resulting
filesystem state (and, for handle-producing calls, the handle stored in
`info->fh`, `none` standing for a null handle).  `ctx_uid` / `ctx_gid`
stand for the calling context's `ctx->uid` / `ctx->gid`. -/

/-- Embedding of `operations::getattr` (operations.cpp lines 1174-1186):
resolve the path and fill the `stat` structure from the object. -/
def fuse_getattr (fs : FileSystem) (path : String) : Int × Option FuseStat :=
  match open_all fs (split path '/') with
  | .error e => (-(e : Int), none)
  | .ok id => (0, (fs.table.lookup id).map FileBase.statOf)

/-- Embedding of `operations::create` (operations.cpp lines 1232-1253):
force the regular-file type bits onto `mode`, refuse a read-only mount
with `-EROFS`, create the object and its directory entry through
`internal::create` (which throws `EEXIST` when the name exists), check
the created flavor, then set uid, gid, nlink = 1 and mode and store the
released handle in `info->fh`. -/
def fuse_create (fs : FileSystem) (ctx_uid ctx_gid : Nat) (path : String)
    (mode : Nat) : Int × FileSystem × Option Nat :=
  let mode1 := (mode &&& 0xFFFF0FFF) ||| S_IFREG
  if is_readonly fs then (-(EROFS : Int), fs, none)
  else
    match internal_create fs (split path '/') FType.regular with
    | (.error e, fs1) => (-(e : Int), fs1, none)
    | (.ok id, fs1) =>
      if getType fs1 id ≠ some FType.regular then (-(EPERM : Int), fs1, none)
      else
        (0,
          updateObj fs1 id (fun o =>
            { o with uid := ctx_uid, gid := ctx_gid, nlink := 1, mode := mode1 }),
          some id)

/-- Embedding of `operations::open` (operations.cpp lines 1255-1281):
writing intent is any of `O_WRONLY`, `O_APPEND`, `O_RDWR`; a read-only
mount refuses it with `-EROFS` before resolving anything; the object must
be a regular file (`-EPERM` otherwise); `O_TRUNC` truncates to zero; the
released handle goes into `info->fh`. -/
def fuse_open (fs : FileSystem) (path : String) (flags : Nat) :
    Int × FileSystem × Option Nat :=
  let rdwr := flags &&& O_RDWR != 0
  let wronly := flags &&& O_WRONLY != 0
  let append := flags &&& O_APPEND != 0
  let require_write := wronly || append || rdwr
  if require_write && is_readonly fs then (-(EROFS : Int), fs, none)
  else
    match open_all fs (split path '/') with
    | .error e => (-(e : Int), fs, none)
    | .ok id =>
      if getType fs id ≠ some FType.regular then (-(EPERM : Int), fs, none)
      else if flags &&& O_TRUNC != 0 then
        (0, updateObj fs id (fun o => { o with data := truncateBytes o.data 0 }), some id)
      else (0, fs, some id)

/-- Embedding of `operations::write` (operations.cpp lines 1315-1330): a
null handle is `-EINVAL`, a non-regular object `-EPERM`; otherwise the
buffer is written at the offset under the object lock and the byte count
returned.  There is no read-only check in this operation. -/
def fuse_write (fs : FileSystem) (fh : Option Nat) (buf : List Nat) (off : Nat) :
    Int × FileSystem :=
  match fh with
  | none => (-(EINVAL : Int), fs)
  | some id =>
    match fs.table.lookup id with
    | none => (-(EINVAL : Int), fs)
    | some fb =>
      if fb.ftype ≠ FType.regular then (-(EPERM : Int), fs)
      else
        ((buf.length : Int),
          updateObj fs id (fun o => { o with data := writeBytes o.data off buf }))

/-- Embedding of `operations::unlink` (operations.cpp lines 1383-1394):
`-EROFS` on a read-only mount, otherwise `internal::remove`. -/
def fuse_unlink (fs : FileSystem) (path : String) : Int × FileSystem :=
  if is_readonly fs then (-(EROFS : Int), fs)
  else
    match internal_remove fs (split path '/') with
    | (.error e, fs1) => (-(e : Int), fs1)
    | (.ok _, fs1) => (0, fs1)

/-- Embedding of `operations::rmdir` (operations.cpp line 1418): it simply
forwards to `operations::unlink`. -/
def fuse_rmdir (fs : FileSystem) (path : String) : Int × FileSystem :=
  fuse_unlink fs path

/-- Embedding of `operations::mkdir` (operations.cpp lines 1396-1416):
force the directory type bits onto `mode`, refuse a read-only mount,
create through `internal::create` with the `DIRECTORY` flavor, check the
flavor, then set uid, gid, nlink = 1 and mode. -/
def fuse_mkdir (fs : FileSystem) (ctx_uid ctx_gid : Nat) (path : String)
    (mode : Nat) : Int × FileSystem :=
  let mode1 := (mode &&& 0xFFFF0FFF) ||| S_IFDIR
  if is_readonly fs then (-(EROFS : Int), fs)
  else
    match internal_create fs (split path '/') FType.directory with
    | (.error e, fs1) => (-(e : Int), fs1)
    | (.ok id, fs1) =>
      if getType fs1 id ≠ some FType.directory then (-(ENOTDIR : Int), fs1)
      else
        (0,
          updateObj fs1 id (fun o =>
            { o with uid := ctx_uid, gid := ctx_gid, nlink := 1, mode := mode1 }))

/-- Embedding of `operations::chmod` (operations.cpp lines 1420-1435):
resolve the path, keep only the permission bits of the requested mode,
merge in the original `S_IFMT` type nibble, and store the result. -/
def fuse_chmod (fs : FileSystem) (path : String) (mode : Nat) : Int × FileSystem :=
  match open_all fs (split path '/') with
  | .error e => (-(e : Int), fs)
  | .ok id =>
    let m2 := (mode &&& 0o777) ||| (get_mode fs id &&& S_IFMT)
    (0, updateObj fs id (fun o => { o with mode := m2 }))

/-- Embedding of `operations::symlink` (operations.cpp lines 1452-1471):
refuse a read-only mount, create a `SYMLINK` object and its directory
entry through `internal::create`, check the flavor, set uid, gid,
nlink = 1, mode = `S_IFLNK | 0755`, and store the target string. -/
def fuse_symlink (fs : FileSystem) (ctx_uid ctx_gid : Nat) (target : String)
    (linkpath : String) : Int × FileSystem :=
  if is_readonly fs then (-(EROFS : Int), fs)
  else
    match internal_create fs (split linkpath '/') FType.symlink with
    | (.error e, fs1) => (-(e : Int), fs1)
    | (.ok id, fs1) =>
      if getType fs1 id ≠ some FType.symlink then (-(EINVAL : Int), fs1)
      else
        (0,
          updateObj fs1 id (fun o =>
            { o with uid := ctx_uid, gid := ctx_gid, nlink := 1
                     mode := S_IFLNK ||| 0o755, target := target }))

/-- Embedding of `operations::readlink` (operations.cpp lines 1473-1489):
`size == 0` is `-EINVAL`; resolve the path, require the `SYMLINK` flavor
(`-EINVAL` otherwise); the caller's buffer of `size` characters is first
zeroed (`memset`), then the first `min(target.length, size - 1)`
characters of the target are copied in (`memcpy`), so the buffer is the
truncated target followed by NUL padding.  The buffer cells stand for the
bytes of the C buffer. -/
def fuse_readlink (fs : FileSystem) (path : String) (size : Nat) :
    Int × List Char :=
  if size = 0 then (-(EINVAL : Int), [])
  else
    match open_all fs (split path '/') with
    | .error e => (-(e : Int), [])
    | .ok id =>
      if getType fs id ≠ some FType.symlink then (-(EINVAL : Int), [])
      else
        let dest := (((fs.table.lookup id).map FileBase.target).getD "").data
        (0, dest.take (size - 1)
              ++ List.replicate (size - min dest.length (size - 1)) (Char.ofNat 0))

/-- The C-string a caller reads back from a `readlink` buffer: the
characters up to the first NUL. -/
def cstringOf (buf : List Char) : String :=
  String.mk (buf.takeWhile (fun c => c != Char.ofNat 0))

/-! ## Concrete fixtures used by witnesses and counterexamples -/

/-- A regular file holding no data, linked once. -/
def fileX : FileBase :=
  { ftype := FType.regular, mode := 0x81A4, nlink := 1 }

/-- A root directory with the single entry `x` naming object 1. -/
def rootWithX : FileBase :=
  { ftype := FType.directory, mode := 0x41ED, nlink := 1
    entries := [("x", (1, FType.regular))] }

/-- A small mounted filesystem: object 0 is the root directory with entry
`x` for the regular file stored under object 1. -/
def fsSample : FileSystem :=
  { table := [(0, rootWithX), (1, fileX)], root_id := 0, readonly := false, fresh := 2 }

/-- The same filesystem mounted read-only. -/
def fsSampleRO : FileSystem :=
  { fsSample with readonly := true }

/-- A root directory with the single entry `d` naming directory 1. -/
def rootWithD : FileBase :=
  { ftype := FType.directory, mode := 0x41ED, nlink := 1
    entries := [("d", (1, FType.directory))] }

/-- A non-empty subdirectory: entry `f` names the regular file 2. -/
def dirD : FileBase :=
  { ftype := FType.directory, mode := 0x41ED, nlink := 1
    entries := [("f", (2, FType.regular))] }

/-- A filesystem with a non-empty subdirectory `/d` containing `/d/f`. -/
def fsNested : FileSystem :=
  { table := [(0, rootWithD), (1, dirD), (2, fileX)], root_id := 0
    readonly := false, fresh := 3 }


/-! ## Helper lemmas about lookups and resolution -/

theorem lookup_append_some {α β : Type} [BEq α] {l : List (α × β)} (m : List (α × β))
    {a : α} {v : β} (h : l.lookup a = some v) : (l ++ m).lookup a = some v := by
  induction l with
  | nil => simp [List.lookup_nil] at h
  | cons p t ih =>
    obtain ⟨k, b⟩ := p
    rw [List.lookup_cons] at h
    rw [List.cons_append, List.lookup_cons]
    cases hk : a == k with
    | true => rw [hk] at h; simpa using h
    | false => rw [hk] at h; exact ih h

theorem lookup_append_none {α β : Type} [BEq α] {l : List (α × β)} (m : List (α × β))
    {a : α} (h : l.lookup a = none) : (l ++ m).lookup a = m.lookup a := by
  induction l with
  | nil => simp
  | cons p t ih =>
    obtain ⟨k, b⟩ := p
    rw [List.lookup_cons] at h
    rw [List.cons_append, List.lookup_cons]
    cases hk : a == k with
    | true => rw [hk] at h; simp at h
    | false => rw [hk] at h; exact ih h

theorem lookup_mem_keys {α β : Type} [BEq α] [LawfulBEq α] {l : List (α × β)}
    {a : α} {v : β} (h : l.lookup a = some v) : a ∈ l.map Prod.fst := by
  induction l with
  | nil => simp [List.lookup_nil] at h
  | cons p t ih =>
    obtain ⟨k, b⟩ := p
    rw [List.lookup_cons] at h
    cases hk : a == k with
    | true => simp [eq_of_beq hk]
    | false => rw [hk] at h; simpa using Or.inr (ih h)

theorem lookup_map_update (l : List (Nat × FileBase)) (i j : Nat)
    (f : FileBase → FileBase) :
    (l.map (fun p => if p.1 = i then (p.1, f p.2) else p)).lookup j
      = (l.lookup j).map (fun fb => if j = i then f fb else fb) := by
  induction l with
  | nil => simp
  | cons p t ih =>
    obtain ⟨k, b⟩ := p
    simp only [List.map_cons]
    cases hjk : j == k with
    | true =>
      have hj : j = k := eq_of_beq hjk
      subst hj
      by_cases hki : j = i
      · simp [hki, List.lookup_cons]
      · simp [hki, List.lookup_cons]
    | false =>
      have hj : j ≠ k := by intro hh; subst hh; simp at hjk
      by_cases hki : k = i
      · subst hki
        simp [List.lookup_cons, hjk, ih]
      · simp [List.lookup_cons, hjk, hki, ih]

theorem updateObj_lookup (fs : FileSystem) (i j : Nat) (f : FileBase → FileBase) :
    (updateObj fs i f).table.lookup j
      = (fs.table.lookup j).map (fun fb => if j = i then f fb else fb) :=
  lookup_map_update fs.table i j f

theorem filter_ne_of_not_mem {l : List (Nat × FileBase)} {i : Nat}
    (h : i ∉ l.map Prod.fst) : l.filter (fun p => p.1 ≠ i) = l := by
  rw [List.filter_eq_self]
  intro a ha
  simp only [decide_eq_true_eq]
  intro hai
  exact h (by simpa [hai] using List.mem_map_of_mem Prod.fst ha)

/-- The relation between two filesystem states under which successful
resolutions are preserved: the root is unchanged, and every stored object
keeps its flavor and at most gains directory entries at the end. -/
def tableExtends (fs fs2 : FileSystem) : Prop :=
  fs2.root_id = fs.root_id ∧
  ∀ j fb, fs.table.lookup j = some fb →
    ∃ fb', fs2.table.lookup j = some fb' ∧ fb'.ftype = fb.ftype ∧
      ∃ ext, fb'.entries = fb.entries ++ ext

theorem table_open_as_ok {fs : FileSystem} {id r : Nat} {t : FType}
    (h : table_open_as fs id t = .ok r) :
    r = id ∧ ∃ fb, fs.table.lookup id = some fb ∧ fb.ftype = t := by
  unfold table_open_as at h
  cases hl : fs.table.lookup id with
  | none => rw [hl] at h; exact absurd h (by simp)
  | some fb =>
    rw [hl] at h
    simp only [] at h
    by_cases hft : fb.ftype = t
    · rw [if_pos hft] at h
      simp only [Except.ok.injEq] at h
      exact ⟨h.symm, fb, rfl, hft⟩
    · rw [if_neg hft] at h
      exact absurd h (by simp)

theorem table_open_as_mono {fs fs2 : FileSystem} (hx : tableExtends fs fs2)
    {id r : Nat} {t : FType} (h : table_open_as fs id t = .ok r) :
    table_open_as fs2 id t = .ok r := by
  obtain ⟨hr, fb, hl, hft⟩ := table_open_as_ok h
  obtain ⟨fb', hl2, hft2, -⟩ := hx.2 id fb hl
  subst hr
  unfold table_open_as
  rw [hl2]
  simp [hft2, hft]

theorem dir_get_entry_mono {fs fs2 : FileSystem} (hx : tableExtends fs fs2)
    {d : Nat} {c : String} {v : Nat × FType} (h : dir_get_entry fs d c = some v) :
    dir_get_entry fs2 d c = some v := by
  unfold dir_get_entry at h
  cases hl : fs.table.lookup d with
  | none => rw [hl] at h; exact absurd h (by simp)
  | some fb =>
    rw [hl] at h
    simp only [] at h
    obtain ⟨fb', hl2, -, ext, hent⟩ := hx.2 d fb hl
    unfold dir_get_entry
    rw [hl2]
    simp only [hent]
    exact lookup_append_some ext h

theorem walk_mono {fs fs2 : FileSystem} (hx : tableExtends fs fs2) :
    ∀ (comps : List String) (cur d : Nat),
      walk fs cur comps = .ok d → walk fs2 cur comps = .ok d := by
  intro comps
  induction comps with
  | nil => intro cur d hw; simpa [walk] using hw
  | cons c rest ih =>
    intro cur d hw
    simp only [walk] at hw ⊢
    cases hget : dir_get_entry fs cur c with
    | none => rw [hget] at hw; exact absurd hw (by simp)
    | some p =>
      obtain ⟨id, t⟩ := p
      rw [hget] at hw
      rw [dir_get_entry_mono hx hget]
      simp only [] at hw ⊢
      by_cases ht : t ≠ FType.directory
      · rw [if_pos ht] at hw; exact absurd hw (by simp)
      · rw [if_neg ht] at hw
        rw [if_neg ht]
        rw [not_not] at ht
        subst ht
        cases hop : table_open_as fs id FType.directory with
        | error e => rw [hop] at hw; exact absurd hw (by simp)
        | ok child =>
          rw [hop] at hw
          rw [table_open_as_mono hx hop]
          exact ih child d hw

theorem walk_append (fs : FileSystem) (cur : Nat) (xs ys : List String) :
    walk fs cur (xs ++ ys)
      = match walk fs cur xs with
        | .ok d => walk fs d ys
        | .error e => .error e := by
  induction xs generalizing cur with
  | nil => simp [walk]
  | cons c rest ih =>
    rw [List.cons_append]
    simp only [walk]
    cases hget : dir_get_entry fs cur c with
    | none => rfl
    | some p =>
      obtain ⟨id, t⟩ := p
      simp only []
      by_cases ht : t ≠ FType.directory
      · rw [if_pos ht, if_pos ht]
      · rw [if_neg ht, if_neg ht]
        cases hop : table_open_as fs id t with
        | error e => rfl
        | ok child => exact ih child

theorem walk_ok_dir {fs : FileSystem} :
    ∀ {comps : List String} {cur d : Nat},
      (∃ fb, fs.table.lookup cur = some fb ∧ fb.ftype = FType.directory) →
      walk fs cur comps = .ok d →
      ∃ fb, fs.table.lookup d = some fb ∧ fb.ftype = FType.directory := by
  intro comps
  induction comps with
  | nil =>
    intro cur d hcur hw
    simp only [walk, Except.ok.injEq] at hw
    exact hw ▸ hcur
  | cons c rest ih =>
    intro cur d hcur hw
    simp only [walk] at hw
    cases hget : dir_get_entry fs cur c with
    | none => rw [hget] at hw; exact absurd hw (by simp)
    | some p =>
      obtain ⟨id, t⟩ := p
      rw [hget] at hw
      simp only [] at hw
      by_cases ht : t ≠ FType.directory
      · rw [if_pos ht] at hw; exact absurd hw (by simp)
      · rw [if_neg ht] at hw
        rw [not_not] at ht
        subst ht
        cases hop : table_open_as fs id FType.directory with
        | error e => rw [hop] at hw; exact absurd hw (by simp)
        | ok child =>
          rw [hop] at hw
          obtain ⟨hc, fb, hl, hft⟩ := table_open_as_ok hop
          exact ih (hc ▸ ⟨fb, hl, hft⟩) hw

theorem open_base_dir_ok_dir {fs : FileSystem} {comps : List String} {d : Nat}
    {last : String} (h : open_base_dir fs comps = .ok (d, last)) :
    ∃ fb, fs.table.lookup d = some fb ∧ fb.ftype = FType.directory := by
  unfold open_base_dir at h
  cases hroot : table_open_as fs fs.root_id FType.directory with
  | error e => rw [hroot] at h; exact absurd h (by simp)
  | ok root =>
    rw [hroot] at h
    simp only [] at h
    obtain ⟨hr, fb, hl, hft⟩ := table_open_as_ok hroot
    by_cases hce : comps.isEmpty = true
    · rw [if_pos hce] at h
      simp only [Except.ok.injEq, Prod.mk.injEq] at h
      exact h.1 ▸ hr ▸ ⟨fb, hl, hft⟩
    · rw [if_neg hce] at h
      cases hw : walk fs root comps.dropLast with
      | error e => rw [hw] at h; exact absurd h (by simp)
      | ok d2 =>
        rw [hw] at h
        simp only [Except.ok.injEq, Prod.mk.injEq] at h
        exact h.1 ▸ walk_ok_dir (hr ▸ ⟨fb, hl, hft⟩) hw

theorem open_base_dir_mono {fs fs2 : FileSystem} (hx : tableExtends fs fs2)
    {comps : List String} {d : Nat} {last : String}
    (h : open_base_dir fs comps = .ok (d, last)) :
    open_base_dir fs2 comps = .ok (d, last) := by
  unfold open_base_dir at h ⊢
  cases hroot : table_open_as fs fs.root_id FType.directory with
  | error e => rw [hroot] at h; exact absurd h (by simp)
  | ok root =>
    rw [hroot] at h
    have hroot2 : table_open_as fs2 fs2.root_id FType.directory = .ok root := by
      rw [hx.1]; exact table_open_as_mono hx hroot
    rw [hroot2]
    simp only [] at h ⊢
    by_cases hce : comps.isEmpty = true
    · rw [if_pos hce] at h ⊢; exact h
    · rw [if_neg hce] at h ⊢
      cases hw : walk fs root comps.dropLast with
      | error e => rw [hw] at h; exact absurd h (by simp)
      | ok d2 =>
        rw [hw] at h
        rw [walk_mono hx _ _ _ hw]
        exact h

theorem open_all_mono {fs fs2 : FileSystem} (hx : tableExtends fs fs2)
    {comps : List String} {id : Nat} (h : open_all fs comps = .ok id) :
    open_all fs2 comps = .ok id := by
  unfold open_all at h ⊢
  cases hb : open_base_dir fs comps with
  | error e => rw [hb] at h; exact absurd h (by simp)
  | ok p =>
    obtain ⟨d, last⟩ := p
    rw [hb] at h
    rw [open_base_dir_mono hx hb]
    simp only [] at h ⊢
    by_cases hl : last = ""
    · rw [if_pos hl] at h ⊢; exact h
    · rw [if_neg hl] at h ⊢
      cases hget : dir_get_entry fs d last with
      | none => rw [hget] at h; exact absurd h (by simp)
      | some v =>
        obtain ⟨i2, t2⟩ := v
        rw [hget] at h
        rw [dir_get_entry_mono hx hget]
        exact table_open_as_mono hx h

theorem open_all_ok_lookup {fs : FileSystem} {comps : List String} {id : Nat}
    (h : open_all fs comps = .ok id) : ∃ fb, fs.table.lookup id = some fb := by
  unfold open_all at h
  cases hb : open_base_dir fs comps with
  | error e => rw [hb] at h; exact absurd h (by simp)
  | ok p =>
    obtain ⟨d, last⟩ := p
    rw [hb] at h
    simp only [] at h
    by_cases hl : last = ""
    · rw [if_pos hl] at h
      simp only [Except.ok.injEq] at h
      obtain ⟨fb, hlk, -⟩ := open_base_dir_ok_dir hb
      exact ⟨fb, h ▸ hlk⟩
    · rw [if_neg hl] at h
      cases hget : dir_get_entry fs d last with
      | none => rw [hget] at h; exact absurd h (by simp)
      | some v =>
        obtain ⟨i2, t2⟩ := v
        rw [hget] at h
        obtain ⟨hr, fb, hlk, -⟩ := table_open_as_ok h
        exact ⟨fb, hr ▸ hlk⟩

/-! ## Arithmetic helper lemmas for the FILETIME conversions -/

theorem wrap64_eq {n : Int} (h1 : -(2 ^ 63) ≤ n) (h2 : n < 2 ^ 63) : wrap64 n = n := by
  unfold wrap64
  have h3 : (0 : Int) ≤ n + 2 ^ 63 := by omega
  have h4 : n + 2 ^ 63 < 2 ^ 64 := by omega
  rw [Int.emod_eq_of_lt h3 h4]
  omega

/-! ## Claim theorems -/

/-- C8: every exception escaping an operation body that is neither an
`OSException` nor an `ExceptionBase` is handled by the final catch clause
of `COMMON_CATCH_BLOCK`, which logs it through
`internal::log_general_error` and reports `-EPERM` to the caller. -/
theorem unknown_exception_reports_eperm (e : CppExn)
    (h1 : ∀ n, e ≠ CppExn.osException n)
    (h2 : ∀ n, e ≠ CppExn.exceptionBase n) :
    run_vfs_op (.error e) = -(EPERM : Int) := by
  cases e with
  | osException n => exact absurd rfl (h1 n)
  | exceptionBase n => exact absurd rfl (h2 n)
  | generalException w => rfl

theorem unknown_exception_reports_eperm_witness :
    (∀ n, CppExn.generalException "bad_alloc" ≠ CppExn.osException n)
    ∧ (∀ n, CppExn.generalException "bad_alloc" ≠ CppExn.exceptionBase n)
    ∧ run_vfs_op (.error (CppExn.generalException "bad_alloc")) = -(EPERM : Int) := by
  constructor
  · intro n h
    cases h
  constructor
  · intro n h
    cases h
  · exact unknown_exception_reports_eperm (CppExn.generalException "bad_alloc")
      (fun n h => by cases h) (fun n h => by cases h)

/-- C9: when path resolution ends at the root directory itself (the final
component is empty, as for "/"), `internal::remove` — the operation
backing both `unlink` and `rmdir` — fails with `EPERM` before touching
any directory entry or object, so the state is returned unchanged. -/
theorem remove_root_is_eperm (fs : FileSystem) (comps : List String) (d : Nat)
    (h : open_base_dir fs comps = .ok (d, "")) :
    internal_remove fs comps = (.error EPERM, fs) := by
  unfold internal_remove
  rw [h]
  simp

theorem remove_root_is_eperm_witness :
    open_base_dir fsSample (split "/" '/') = .ok (0, "")
    ∧ internal_remove fsSample (split "/" '/') = (.error EPERM, fsSample) :=
  ⟨by rfl, remove_root_is_eperm fsSample (split "/" '/') 0 (by rfl)⟩

/-- C10 counterexample: at `tv_sec = 10^12` (with `tv_nsec = 0`, a valid
100-ns multiple) the 64-bit tick count `tv_sec * 10^7 + 116444736000000000`
exceeds `2^63 - 1`, the `long long` arithmetic wraps, and the round trip
through `unix_time_to_filetime` / `filetime_to_unix_time` does not return
the input. -/
theorem filetime_roundtrip_cex :
    filetime_to_unix_time (unix_time_to_filetime ⟨1000000000000, 0⟩)
      ≠ (⟨1000000000000, 0⟩ : FuseTimespec) := by
  decide

/-- C10 (amended): for every timespec with `tv_sec ≥ 0`,
`0 ≤ tv_nsec < 10^9` a multiple of 100, and a 100-nanosecond tick count
`tv_sec * 10^7 + tv_nsec / 100 + 116444736000000000` that fits a signed
64-bit integer, `unix_time_to_filetime` followed by
`filetime_to_unix_time` returns the timespec exactly. -/
theorem filetime_roundtrip (t : FuseTimespec)
    (hs : 0 ≤ t.tv_sec) (hn0 : 0 ≤ t.tv_nsec) (hn1 : t.tv_nsec < 1000000000)
    (hmul : t.tv_nsec.tmod 100 = 0)
    (hbound : t.tv_sec * 10000000 + t.tv_nsec.tdiv 100 + 116444736000000000 < 2 ^ 63) :
    filetime_to_unix_time (unix_time_to_filetime t) = t := by
  obtain ⟨s, n⟩ := t
  simp only at hs hn0 hn1 hmul hbound
  have htd : n.tdiv 100 = n / 100 := Int.tdiv_eq_ediv hn0 (by norm_num)
  have hem : n.tmod 100 = n % 100 := Int.tmod_eq_emod hn0 (by norm_num)
  rw [htd] at hbound
  rw [hem] at hmul
  simp only [unix_time_to_filetime]
  rw [htd]
  have w1 : wrap64 (s * 10000000) = s * 10000000 :=
    wrap64_eq (by omega) (by omega)
  rw [w1]
  have w2 : wrap64 (s * 10000000 + n / 100) = s * 10000000 + n / 100 :=
    wrap64_eq (by omega) (by omega)
  rw [w2]
  have w3 : wrap64 (s * 10000000 + n / 100 + 116444736000000000)
      = s * 10000000 + n / 100 + 116444736000000000 :=
    wrap64_eq (by omega) (by omega)
  rw [w3]
  set ll : Int := s * 10000000 + n / 100 + 116444736000000000 with hlldef
  have hll0 : (0 : Int) ≤ ll := by omega
  have hll1 : ll < 2 ^ 63 := hbound
  have ha : (0 : Int) ≤ ll % 2 ^ 32 := Int.emod_nonneg ll (by norm_num)
  have ha2 : ll % 2 ^ 32 < 2 ^ 32 := Int.emod_lt_of_pos ll (by norm_num)
  have hb : (0 : Int) ≤ ll / 2 ^ 32 := Int.ediv_nonneg hll0 (by norm_num)
  have hc : ll / 2 ^ 32 < 2 ^ 32 := by omega
  simp only [filetime_to_unix_time]
  have hhigh : ((toDWORD (ll / 2 ^ 32) : Nat) : Int) = ll / 2 ^ 32 := by
    unfold toDWORD
    rw [Int.emod_eq_of_lt hb hc, Int.toNat_of_nonneg hb]
  have hlow : ((toDWORD ll : Nat) : Int) = ll % 2 ^ 32 := by
    unfold toDWORD
    rw [Int.toNat_of_nonneg ha]
  rw [hhigh, hlow]
  have w4 : wrap64 (ll / 2 ^ 32 * 2 ^ 32) = ll / 2 ^ 32 * 2 ^ 32 :=
    wrap64_eq (by omega) (by omega)
  rw [w4]
  have hsum : ll / 2 ^ 32 * 2 ^ 32 + ll % 2 ^ 32 = ll := by omega
  rw [hsum]
  have w5 : wrap64 ll = ll := wrap64_eq (by omega) (by omega)
  rw [w5]
  have hsub : ll - 116444736000000000 = s * 10000000 + n / 100 := by omega
  rw [hsub]
  have w6 : wrap64 (s * 10000000 + n / 100) = s * 10000000 + n / 100 :=
    wrap64_eq (by omega) (by omega)
  rw [w6]
  have htd2 : (s * 10000000 + n / 100).tdiv 10000000
      = (s * 10000000 + n / 100) / 10000000 :=
    Int.tdiv_eq_ediv (by omega) (by norm_num)
  have hem2 : (s * 10000000 + n / 100).tmod 10000000
      = (s * 10000000 + n / 100) % 10000000 :=
    Int.tmod_eq_emod (by omega) (by norm_num)
  rw [htd2, hem2]
  simp only [FuseTimespec.mk.injEq]
  constructor
  · omega
  · omega

theorem filetime_roundtrip_witness :
    ((0 : Int) ≤ (⟨1600000000, 123456700⟩ : FuseTimespec).tv_sec)
    ∧ ((0 : Int) ≤ (⟨1600000000, 123456700⟩ : FuseTimespec).tv_nsec)
    ∧ ((⟨1600000000, 123456700⟩ : FuseTimespec).tv_nsec < 1000000000)
    ∧ ((⟨1600000000, 123456700⟩ : FuseTimespec).tv_nsec.tmod 100 = 0)
    ∧ ((⟨1600000000, 123456700⟩ : FuseTimespec).tv_sec * 10000000
        + (⟨1600000000, 123456700⟩ : FuseTimespec).tv_nsec.tdiv 100
        + 116444736000000000 < 2 ^ 63)
    ∧ filetime_to_unix_time (unix_time_to_filetime ⟨1600000000, 123456700⟩)
        = (⟨1600000000, 123456700⟩ : FuseTimespec) :=
  ⟨by decide, by decide, by decide, by decide, by decide,
    filetime_roundtrip ⟨1600000000, 123456700⟩
      (by decide) (by decide) (by decide) (by decide) (by decide)⟩

/-- C5: path resolution opens the root first; an empty component list
resolves to the root directory itself (empty final component), and for
each non-final component `c` reached with current directory `cur`, a
missing entry fails the whole resolution with `ENOENT`, an entry whose
recorded type is not `DIRECTORY` fails it with `ENOTDIR`, and an entry of
directory type continues the resolution into the opened child. -/
theorem path_resolution_steps (fs : FileSystem) (r : Nat) (comps : List String)
    (hroot : table_open_as fs fs.root_id FType.directory = .ok r) :
    open_base_dir fs [] = .ok (r, "")
    ∧ ∀ (pre : List String) (c : String) (post : List String) (cur : Nat),
        comps = pre ++ c :: post → post ≠ [] →
        walk fs r pre = .ok cur →
        (dir_get_entry fs cur c = none →
          open_base_dir fs comps = .error ENOENT)
        ∧ (∀ id t, dir_get_entry fs cur c = some (id, t) → t ≠ FType.directory →
            open_base_dir fs comps = .error ENOTDIR)
        ∧ (∀ id, dir_get_entry fs cur c = some (id, FType.directory) →
            table_open_as fs id FType.directory = .ok id →
            walk fs r (pre ++ [c]) = .ok id) := by
  constructor
  · unfold open_base_dir
    rw [hroot]
    simp
  · intro pre c post cur hcomps hpost hwalk
    subst hcomps
    have hdrop : (pre ++ c :: post).dropLast = pre ++ c :: post.dropLast := by
      rw [List.dropLast_append_of_ne_nil _ (by simp)]
      rw [show c :: post = [c] ++ post from rfl,
        List.dropLast_append_of_ne_nil _ hpost]
      simp
    have hbase : ∀ res : Except Nat (Nat × String),
        (∀ e, walk fs r ((pre ++ c :: post).dropLast) = .error e → res = .error e) →
        (∀ d, walk fs r ((pre ++ c :: post).dropLast) = .ok d →
          res = .ok (d, (pre ++ c :: post).getLastD "")) →
        open_base_dir fs (pre ++ c :: post) = res := by
      intro res herr hok
      unfold open_base_dir
      split
      next e heq =>
        rw [heq] at hroot
        exact absurd hroot (by simp)
      next root heq =>
        rw [heq] at hroot
        have hr : root = r := by
          injection hroot
        subst hr
        rw [if_neg (by simp)]
        split
        next e hw => exact (herr e hw).symm
        next d hw => exact (hok d hw).symm
    constructor
    · intro hget
      refine hbase (.error ENOENT) ?_ ?_
      · intro e hw
        rw [hdrop, walk_append fs r pre (c :: post.dropLast), hwalk] at hw
        simp only [walk, hget] at hw
        injection hw with he
        exact he ▸ rfl
      · intro d hw
        rw [hdrop, walk_append fs r pre (c :: post.dropLast), hwalk] at hw
        simp only [walk, hget] at hw
        exact absurd hw (by simp)
    constructor
    · intro id t hget ht
      refine hbase (.error ENOTDIR) ?_ ?_
      · intro e hw
        rw [hdrop, walk_append fs r pre (c :: post.dropLast), hwalk] at hw
        simp only [walk, hget] at hw
        rw [if_pos ht] at hw
        injection hw with he
        exact he ▸ rfl
      · intro d hw
        rw [hdrop, walk_append fs r pre (c :: post.dropLast), hwalk] at hw
        simp only [walk, hget] at hw
        rw [if_pos ht] at hw
        exact absurd hw (by simp)
    · intro id hget hopen
      rw [walk_append fs r pre [c], hwalk]
      simp only [walk, hget]
      rw [if_neg (by simp)]
      rw [hopen]

theorem path_resolution_steps_witness :
    table_open_as fsNested fsNested.root_id FType.directory = .ok 0
    ∧ (open_base_dir fsNested [] = .ok (0, "")
    ∧ ∀ (pre : List String) (c : String) (post : List String) (cur : Nat),
        (["d", "f"] : List String) = pre ++ c :: post → post ≠ [] →
        walk fsNested 0 pre = .ok cur →
        (dir_get_entry fsNested cur c = none →
          open_base_dir fsNested ["d", "f"] = .error ENOENT)
        ∧ (∀ id t, dir_get_entry fsNested cur c = some (id, t) →
            t ≠ FType.directory →
            open_base_dir fsNested ["d", "f"] = .error ENOTDIR)
        ∧ (∀ id, dir_get_entry fsNested cur c = some (id, FType.directory) →
            table_open_as fsNested id FType.directory = .ok id →
            walk fsNested 0 (pre ++ [c]) = .ok id)) :=
  ⟨by rfl, path_resolution_steps fsNested 0 ["d", "f"] (by rfl)⟩

/-- C1 counterexample: on a read-only mount, a (read-only) handle on
`/x` is obtainable through `operations::open`, and `operations::write` on
that handle does not return `-EROFS`: it writes the buffer and returns
its length, changing the file contents from `[]` to `[104, 105]`. -/
theorem write_readonly_cex :
    is_readonly fsSampleRO = true
    ∧ fuse_open fsSampleRO "/x" 0 = (0, fsSampleRO, some 1)
    ∧ (fuse_write fsSampleRO (some 1) [104, 105] 0).1 = 2
    ∧ (fuse_write fsSampleRO (some 1) [104, 105] 0).1 ≠ -(EROFS : Int)
    ∧ ((fuse_write fsSampleRO (some 1) [104, 105] 0).2.table.lookup 1).map
        FileBase.data = some [104, 105]
    ∧ (fsSampleRO.table.lookup 1).map FileBase.data = some [] :=
  ⟨rfl, rfl, rfl, by decide, rfl, rfl⟩

/-- C1 (amended): on a read-only mount the read-only policy is enforced
when a handle is acquired, not inside `operations::write`: `open` with
write intent (`O_WRONLY`, `O_RDWR` or `O_APPEND`) and `create` both
return `-EROFS` and leave the filesystem unchanged with no handle, while
`operations::write` itself performs no read-only check (see the
counterexample). -/
theorem readonly_blocks_write_handles (fs : FileSystem) (path : String)
    (flags : Nat) (uid gid mode : Nat)
    (hro : is_readonly fs = true)
    (hw : flags &&& O_WRONLY ≠ 0 ∨ flags &&& O_RDWR ≠ 0 ∨ flags &&& O_APPEND ≠ 0) :
    fuse_open fs path flags = (-(EROFS : Int), fs, none)
    ∧ fuse_create fs uid gid path mode = (-(EROFS : Int), fs, none) := by
  constructor
  · unfold fuse_open
    have hcond : ((flags &&& O_WRONLY != 0 || flags &&& O_APPEND != 0
        || flags &&& O_RDWR != 0) && is_readonly fs) = true := by
      rw [hro, Bool.and_true]
      rcases hw with h | h | h <;> simp [bne_iff_ne, h]
    rw [if_pos hcond]
  · unfold fuse_create
    rw [if_pos hro]

theorem readonly_blocks_write_handles_witness :
    is_readonly fsSampleRO = true
    ∧ ((1 : Nat) &&& O_WRONLY ≠ 0 ∨ (1 : Nat) &&& O_RDWR ≠ 0
        ∨ (1 : Nat) &&& O_APPEND ≠ 0)
    ∧ fuse_open fsSampleRO "/x" 1 = (-(EROFS : Int), fsSampleRO, none)
    ∧ fuse_create fsSampleRO 0 0 "/x" 0o644 = (-(EROFS : Int), fsSampleRO, none) := by
  refine ⟨rfl, Or.inl (by decide), ?_⟩
  exact readonly_blocks_write_handles fsSampleRO "/x" 1 0 0 0o644 rfl
    (Or.inl (by decide))

/-- C2: removing a directory that still contains an entry (via `rmdir`,
which forwards to `unlink` and `internal::remove`) fails with
`-ENOTEMPTY` — the structural precondition of `remove_entry` — and the
filesystem is returned unchanged, so the directory and its entries remain
present. -/
theorem rmdir_nonempty_enotempty (fs : FileSystem) (path : String)
    (dirId : Nat) (last : String) (id : Nat) (cfb : FileBase)
    (hro : fs.readonly = false)
    (hbase : open_base_dir fs (split path '/') = .ok (dirId, last))
    (hlast : last ≠ "")
    (hget : dir_get_entry fs dirId last = some (id, FType.directory))
    (hcfb : fs.table.lookup id = some cfb)
    (hft : cfb.ftype = FType.directory)
    (hne : cfb.entries ≠ []) :
    fuse_rmdir fs path = (-(ENOTEMPTY : Int), fs)
    ∧ fs.table.lookup id = some cfb ∧ cfb.entries ≠ [] := by
  refine ⟨?_, hcfb, hne⟩
  have hrem : internal_remove fs (split path '/') = (.error ENOTEMPTY, fs) := by
    unfold internal_remove
    rw [hbase]
    simp only []
    rw [if_neg hlast, hget]
    simp only [hcfb]
    rw [if_pos]
    rw [hft]
    simp [hne]
  unfold fuse_rmdir fuse_unlink
  rw [if_neg (by simp [is_readonly, hro]), hrem]

theorem rmdir_nonempty_enotempty_witness :
    fsNested.readonly = false
    ∧ open_base_dir fsNested (split "/d" '/') = .ok (0, "d")
    ∧ ("d" : String) ≠ ""
    ∧ dir_get_entry fsNested 0 "d" = some (1, FType.directory)
    ∧ fsNested.table.lookup 1 = some dirD
    ∧ dirD.ftype = FType.directory
    ∧ dirD.entries ≠ []
    ∧ fuse_rmdir fsNested "/d" = (-(ENOTEMPTY : Int), fsNested) := by
  refine ⟨rfl, by rfl, by decide, by rfl, by rfl, rfl, by decide, ?_⟩
  exact (rmdir_nonempty_enotempty fsNested "/d" 0 "d" 1 dirD rfl (by rfl)
    (by decide) (by rfl) (by rfl) rfl (by decide)).1

/-- C4: when `internal::create` (used by `create`, `mkdir` and `symlink`)
fails to add the directory entry because the name already exists
(`add_entry` returns false), the freshly created object is `unlink()`ed
and the error `EEXIST` propagates; releasing the guards purges the
object — nlink is 0 at last close — so the resulting object table is
exactly the original one: no orphan object remains. -/
theorem create_add_entry_failure_no_orphan (fs : FileSystem) (comps : List String)
    (t : FType) (dirId : Nat) (last : String) (e : Nat × FType)
    (hbase : open_base_dir fs comps = .ok (dirId, last))
    (hget : dir_get_entry fs dirId last = some e) :
    (internal_create fs comps t).1 = .error EEXIST
    ∧ (internal_create fs comps t).2.table = fs.table := by
  unfold internal_create
  rw [hbase]
  simp only []
  by_cases hin : fs.fresh ∈ fs.table.map Prod.fst
  · rw [if_pos hin]
    constructor
    · rfl
    · rfl
  · rw [if_neg hin, hget]
    constructor
    · rfl
    show ((fs.fresh, ({ ftype := t } : FileBase)) :: fs.table).filter
        (fun p => p.1 ≠ fs.fresh) = fs.table
    have hhead : (decide (((fs.fresh, ({ ftype := t } : FileBase)) : Nat × FileBase).1
        ≠ fs.fresh)) = false := by simp
    rw [List.filter_cons, hhead]
    rw [if_neg (by simp)]
    exact filter_ne_of_not_mem hin

theorem create_add_entry_failure_no_orphan_witness :
    open_base_dir fsSample ["x"] = .ok (0, "x")
    ∧ dir_get_entry fsSample 0 "x" = some (1, FType.regular)
    ∧ (internal_create fsSample ["x"] FType.regular).1 = .error EEXIST
    ∧ (internal_create fsSample ["x"] FType.regular).2.table = fsSample.table := by
  refine ⟨by rfl, by rfl, ?_⟩
  exact create_add_entry_failure_no_orphan fsSample ["x"] FType.regular 0 "x"
    (1, FType.regular) (by rfl) (by rfl)

/-- C3: creating a path whose final name already exists in the parent
directory returns `-EEXIST` and leaves the object table (and hence the
parent's entry set and the object the entry refers to) unchanged, while a
first create of a free name returns 0 and installs an entry for the
fresh object. -/
theorem create_second_eexist (fs : FileSystem) (uid gid : Nat) (path : String)
    (mode : Nat) (dirId : Nat) (last : String)
    (hro : fs.readonly = false)
    (hbase : open_base_dir fs (split path '/') = .ok (dirId, last)) :
    (∀ e, dir_get_entry fs dirId last = some e →
      ∃ fs2, fuse_create fs uid gid path mode = (-(EEXIST : Int), fs2, none)
        ∧ fs2.table = fs.table)
    ∧ (dir_get_entry fs dirId last = none →
       fs.fresh ∉ fs.table.map Prod.fst →
       ∃ fs2, fuse_create fs uid gid path mode = (0, fs2, some fs.fresh)
         ∧ dir_get_entry fs2 dirId last = some (fs.fresh, FType.regular)) := by
  have hnro : ¬(is_readonly fs = true) := by simp [is_readonly, hro]
  constructor
  · intro e hget
    have h4 := create_add_entry_failure_no_orphan fs (split path '/')
      FType.regular dirId last e hbase hget
    unfold fuse_create
    rw [if_neg hnro]
    cases hic : internal_create fs (split path '/') FType.regular with
    | mk r fs1 =>
      rw [hic] at h4
      have hr : r = Except.error EEXIST := h4.1
      subst hr
      exact ⟨fs1, rfl, h4.2⟩
  · intro hget hfresh
    obtain ⟨dfb, hdfb, hdft⟩ := open_base_dir_ok_dir hbase
    have hdmem : dirId ∈ fs.table.map Prod.fst := lookup_mem_keys hdfb
    have hne_id : fs.fresh ≠ dirId := fun h => hfresh (h ▸ hdmem)
    have hnone : dfb.entries.lookup last = none := by
      unfold dir_get_entry at hget
      rw [hdfb] at hget
      exact hget
    unfold fuse_create
    rw [if_neg hnro]
    have hic : internal_create fs (split path '/') FType.regular
        = (.ok fs.fresh,
            updateObj
              { fs with
                  table := (fs.fresh, ({ ftype := FType.regular } : FileBase)) :: fs.table
                  fresh := fs.fresh + 1 }
              dirId
              (fun d =>
                { d with entries := d.entries ++ [(last, (fs.fresh, FType.regular))] })) := by
      unfold internal_create
      rw [hbase]
      simp only []
      rw [if_neg hfresh, hget]
    rw [hic]
    split
    next e fs1 heq => exact absurd heq (by simp)
    next idn fs1 heq =>
    have hid : idn = fs.fresh := by
      have := congrArg Prod.fst heq
      simpa using this.symm
    have hfs1 : fs1 = updateObj
        { fs with
            table := (fs.fresh, ({ ftype := FType.regular } : FileBase)) :: fs.table
            fresh := fs.fresh + 1 }
        dirId
        (fun d =>
          { d with entries := d.entries ++ [(last, (fs.fresh, FType.regular))] }) := by
      have := congrArg Prod.snd heq
      simpa using this.symm
    subst hid
    subst hfs1
    have hlk1 : ({ fs with
        table := (fs.fresh, ({ ftype := FType.regular } : FileBase)) :: fs.table
        fresh := fs.fresh + 1 } : FileSystem).table.lookup fs.fresh
          = some ({ ftype := FType.regular } : FileBase) := by
      simp [List.lookup_cons]
    have hlkf : (updateObj
        { fs with
            table := (fs.fresh, ({ ftype := FType.regular } : FileBase)) :: fs.table
            fresh := fs.fresh + 1 }
        dirId
        (fun d =>
          { d with entries := d.entries ++ [(last, (fs.fresh, FType.regular))] })
          : FileSystem).table.lookup fs.fresh
          = some ({ ftype := FType.regular } : FileBase) := by
      rw [updateObj_lookup, hlk1]
      simp [hne_id]
    have hgt : getType (updateObj
        { fs with
            table := (fs.fresh, ({ ftype := FType.regular } : FileBase)) :: fs.table
            fresh := fs.fresh + 1 }
        dirId
        (fun d =>
          { d with entries := d.entries ++ [(last, (fs.fresh, FType.regular))] }))
        fs.fresh = some FType.regular := by
      simp [getType, hlkf]
    rw [if_neg (by simp [hgt])]
    refine ⟨_, rfl, ?_⟩
    have hlkd1 : ({ fs with
        table := (fs.fresh, ({ ftype := FType.regular } : FileBase)) :: fs.table
        fresh := fs.fresh + 1 } : FileSystem).table.lookup dirId = some dfb := by
      rw [List.lookup_cons]
      have hb : (dirId == fs.fresh) = false := by
        simp [Ne.symm hne_id]
      rw [hb]
      exact hdfb
    have hlkd : (updateObj
        { fs with
            table := (fs.fresh, ({ ftype := FType.regular } : FileBase)) :: fs.table
            fresh := fs.fresh + 1 }
        dirId
        (fun d =>
          { d with entries := d.entries ++ [(last, (fs.fresh, FType.regular))] })
          : FileSystem).table.lookup dirId
        = some ({ dfb with
            entries := dfb.entries ++ [(last, (fs.fresh, FType.regular))] }) := by
      rw [updateObj_lookup, hlkd1]
      simp
    unfold dir_get_entry
    rw [updateObj_lookup, hlkd]
    simp [Ne.symm hne_id, lookup_append_none _ hnone, List.lookup_cons]

theorem create_second_eexist_witness :
    fsSample.readonly = false
    ∧ open_base_dir fsSample (split "/x" '/') = .ok (0, "x")
    ∧ ((∀ e, dir_get_entry fsSample 0 "x" = some e →
        ∃ fs2, fuse_create fsSample 7 8 "/x" 0o644 = (-(EEXIST : Int), fs2, none)
          ∧ fs2.table = fsSample.table)
      ∧ (dir_get_entry fsSample 0 "x" = none →
         fsSample.fresh ∉ fsSample.table.map Prod.fst →
         ∃ fs2, fuse_create fsSample 7 8 "/x" 0o644 = (0, fs2, some fsSample.fresh)
           ∧ dir_get_entry fs2 0 "x" = some (fsSample.fresh, FType.regular))) :=
  ⟨rfl, by rfl, create_second_eexist fsSample 7 8 "/x" 0o644 0 "x" rfl (by rfl)⟩

/-! ## Helper lemmas for chmod and symlink -/

theorem updateObj_extends (fs : FileSystem) (i : Nat) (f : FileBase → FileBase)
    (hf : ∀ fb, (f fb).ftype = fb.ftype ∧ (f fb).entries = fb.entries) :
    tableExtends fs (updateObj fs i f) := by
  constructor
  · rfl
  · intro j fb hj
    rw [updateObj_lookup, hj]
    by_cases hji : j = i
    · exact ⟨f fb, by simp [hji], (hf fb).1, [], by simp [(hf fb).2]⟩
    · exact ⟨fb, by simp [hji], rfl, [], by simp⟩

theorem mask_disjoint_low (a b c1 c2 : Bool) (hd : (c1 && c2) = false) :
    ((a && c1 || b && c2) && c1) = (a && c1) := by
  cases c1 <;> cases c2 <;> cases a <;> cases b <;> simp_all

theorem mask_disjoint_high (a b c1 c2 : Bool) (hd : (c1 && c2) = false) :
    ((a && c1 || b && c2) && c2) = (b && c2) := by
  cases c1 <;> cases c2 <;> cases a <;> cases b <;> simp_all

theorem perm_bits_of_merge (m x : Nat) :
    ((m &&& 0o777) ||| (x &&& S_IFMT)) &&& 0o777 = m &&& 0o777 := by
  apply Nat.eq_of_testBit_eq
  intro i
  have hd : (Nat.testBit 0o777 i && Nat.testBit S_IFMT i) = false := by
    rw [← Nat.testBit_land]
    have hz : ((0o777 : Nat) &&& S_IFMT) = 0 := by decide
    rw [hz]
    exact Nat.zero_testBit i
  simp only [Nat.testBit_land, Nat.testBit_lor]
  exact mask_disjoint_low _ _ _ _ hd

theorem type_bits_of_merge (m x : Nat) :
    ((m &&& 0o777) ||| (x &&& S_IFMT)) &&& S_IFMT = x &&& S_IFMT := by
  apply Nat.eq_of_testBit_eq
  intro i
  have hd : (Nat.testBit 0o777 i && Nat.testBit S_IFMT i) = false := by
    rw [← Nat.testBit_land]
    have hz : ((0o777 : Nat) &&& S_IFMT) = 0 := by decide
    rw [hz]
    exact Nat.zero_testBit i
  simp only [Nat.testBit_land, Nat.testBit_lor]
  exact mask_disjoint_high _ _ _ _ hd

/-- C6: after a successful `chmod(p, m)`, `getattr(p)` reports a mode
whose permission bits equal `m & 0o777` and whose `S_IFMT` type nibble is
unchanged from the object's previous mode. -/
theorem chmod_stat (fs : FileSystem) (path : String) (m : Nat) (id : Nat)
    (fb : FileBase)
    (hopen : open_all fs (split path '/') = .ok id)
    (hlk : fs.table.lookup id = some fb) :
    ∃ fs2 st, fuse_chmod fs path m = (0, fs2)
      ∧ fuse_getattr fs2 path = (0, some st)
      ∧ st.st_mode &&& 0o777 = m &&& 0o777
      ∧ st.st_mode &&& S_IFMT = fb.mode &&& S_IFMT := by
  have hgm : get_mode fs id = fb.mode := by simp [get_mode, hlk]
  have hchmod : fuse_chmod fs path m
      = (0, updateObj fs id (fun o =>
          { o with mode := (m &&& 0o777) ||| (fb.mode &&& S_IFMT) })) := by
    unfold fuse_chmod
    rw [hopen]
    simp only [hgm]
  have hext : tableExtends fs (updateObj fs id (fun o =>
      { o with mode := (m &&& 0o777) ||| (fb.mode &&& S_IFMT) })) :=
    updateObj_extends fs id _ (fun _ => ⟨rfl, rfl⟩)
  have hopen2 := open_all_mono hext hopen
  have hlk2 : (updateObj fs id (fun o =>
      { o with mode := (m &&& 0o777) ||| (fb.mode &&& S_IFMT) })).table.lookup id
      = some ({ fb with mode := (m &&& 0o777) ||| (fb.mode &&& S_IFMT) }) := by
    rw [updateObj_lookup, hlk]
    simp
  refine ⟨_, ({ fb with mode := (m &&& 0o777) ||| (fb.mode &&& S_IFMT) }
      : FileBase).statOf, hchmod, ?_, ?_, ?_⟩
  · unfold fuse_getattr
    rw [hopen2]
    simp [hlk2]
  · exact perm_bits_of_merge m fb.mode
  · exact type_bits_of_merge m fb.mode

theorem chmod_stat_witness :
    open_all fsSample (split "/x" '/') = .ok 1
    ∧ fsSample.table.lookup 1 = some fileX
    ∧ ∃ fs2 st, fuse_chmod fsSample "/x" 0o640 = (0, fs2)
        ∧ fuse_getattr fs2 "/x" = (0, some st)
        ∧ st.st_mode &&& 0o777 = 0o640 &&& 0o777
        ∧ st.st_mode &&& S_IFMT = fileX.mode &&& S_IFMT :=
  ⟨by rfl, by rfl, chmod_stat fsSample "/x" 0o640 1 fileX (by rfl) (by rfl)⟩

theorem takeWhile_append_replicate (l : List Char) (n : Nat)
    (h : ∀ c ∈ l, (c != Char.ofNat 0) = true) :
    (l ++ List.replicate n (Char.ofNat 0)).takeWhile (fun c => c != Char.ofNat 0)
      = l := by
  induction l with
  | nil =>
    cases n with
    | zero => simp
    | succ k =>
      rw [List.nil_append, List.replicate_succ, List.takeWhile_cons]
      simp
  | cons a l ih =>
    have ha := h a (by simp)
    rw [List.cons_append, List.takeWhile_cons, if_pos ha]
    rw [ih (fun c hc => h c (by simp [hc]))]

theorem table_open_as_of_lookup {fs : FileSystem} {id : Nat} {fb : FileBase}
    {t : FType} (h : fs.table.lookup id = some fb) (ht : fb.ftype = t) :
    table_open_as fs id t = .ok id := by
  unfold table_open_as
  rw [h]
  simp [ht]

/-- C7: after a successful `symlink(t, p)`, `readlink(p, buf, size)` with
`size > 0` succeeds and fills the `size`-cell buffer with `t` truncated
to at most `size - 1` characters followed by NUL padding; whenever
`t` fits in `size - 1` cells (and contains no NUL), the C string read
back from the buffer is exactly `t`. -/
theorem symlink_readlink (fs : FileSystem) (u g : Nat) (t p : String)
    (size : Nat) (dirId : Nat) (last : String) (dfb : FileBase)
    (hro : fs.readonly = false)
    (hbase : open_base_dir fs (split p '/') = .ok (dirId, last))
    (hlast : last ≠ "")
    (hdfb : fs.table.lookup dirId = some dfb)
    (hfree : dfb.entries.lookup last = none)
    (hfresh : fs.fresh ∉ fs.table.map Prod.fst)
    (hsz : 0 < size) :
    ∃ fs2, fuse_symlink fs u g t p = (0, fs2)
      ∧ fuse_readlink fs2 p size
          = (0, t.data.take (size - 1)
                ++ List.replicate (size - min t.data.length (size - 1)) (Char.ofNat 0))
      ∧ (t.data.length ≤ size - 1 → Char.ofNat 0 ∉ t.data →
          cstringOf (t.data.take (size - 1)
            ++ List.replicate (size - min t.data.length (size - 1)) (Char.ofNat 0))
            = t) := by
  have hnro : ¬(is_readonly fs = true) := by simp [is_readonly, hro]
  have hget : dir_get_entry fs dirId last = none := by
    unfold dir_get_entry
    rw [hdfb]
    exact hfree
  have hdmem : dirId ∈ fs.table.map Prod.fst := lookup_mem_keys hdfb
  have hne_id : fs.fresh ≠ dirId := fun h => hfresh (h ▸ hdmem)
  have hic : internal_create fs (split p '/') FType.symlink
      = (.ok fs.fresh,
          updateObj
            { fs with
                table := (fs.fresh, ({ ftype := FType.symlink } : FileBase)) :: fs.table
                fresh := fs.fresh + 1 }
            dirId
            (fun d =>
              { d with entries := d.entries ++ [(last, (fs.fresh, FType.symlink))] })) := by
    unfold internal_create
    rw [hbase]
    simp only []
    rw [if_neg hfresh, hget]
  have hlk1 : ({ fs with
      table := (fs.fresh, ({ ftype := FType.symlink } : FileBase)) :: fs.table
      fresh := fs.fresh + 1 } : FileSystem).table.lookup fs.fresh
        = some ({ ftype := FType.symlink } : FileBase) := by
    simp [List.lookup_cons]
  have hlkf : (updateObj
      { fs with
          table := (fs.fresh, ({ ftype := FType.symlink } : FileBase)) :: fs.table
          fresh := fs.fresh + 1 }
      dirId
      (fun d =>
        { d with entries := d.entries ++ [(last, (fs.fresh, FType.symlink))] })
        : FileSystem).table.lookup fs.fresh
        = some ({ ftype := FType.symlink } : FileBase) := by
    rw [updateObj_lookup, hlk1]
    simp [hne_id]
  have hgt : getType (updateObj
      { fs with
          table := (fs.fresh, ({ ftype := FType.symlink } : FileBase)) :: fs.table
          fresh := fs.fresh + 1 }
      dirId
      (fun d =>
        { d with entries := d.entries ++ [(last, (fs.fresh, FType.symlink))] }))
      fs.fresh = some FType.symlink := by
    simp [getType, hlkf]
  unfold fuse_symlink
  rw [if_neg hnro, hic]
  split
  next e fs1 heq => exact absurd heq (by simp)
  next idn fs1 heq =>
  have hid : idn = fs.fresh := by
    have := congrArg Prod.fst heq
    simpa using this.symm
  have hfs1 : fs1 = updateObj
      { fs with
          table := (fs.fresh, ({ ftype := FType.symlink } : FileBase)) :: fs.table
          fresh := fs.fresh + 1 }
      dirId
      (fun d =>
        { d with entries := d.entries ++ [(last, (fs.fresh, FType.symlink))] }) := by
    have := congrArg Prod.snd heq
    simpa using this.symm
  subst hid
  subst hfs1
  rw [if_neg (by simp [hgt])]
  refine ⟨_, rfl, ?_, ?_⟩
  · -- the readlink computation on the post-symlink state
    have hlkf2 : (updateObj
        (updateObj
          { fs with
              table := (fs.fresh, ({ ftype := FType.symlink } : FileBase)) :: fs.table
              fresh := fs.fresh + 1 }
          dirId
          (fun d =>
            { d with entries := d.entries ++ [(last, (fs.fresh, FType.symlink))] }))
        fs.fresh
        (fun o =>
          { o with uid := u, gid := g, nlink := 1
                   mode := S_IFLNK ||| 0o755, target := t })
          : FileSystem).table.lookup fs.fresh
        = some ({ ftype := FType.symlink, uid := u, gid := g
                  mode := S_IFLNK ||| 0o755, nlink := 1, data := []
                  target := t, entries := [] } : FileBase) := by
      rw [updateObj_lookup, hlkf]
      simp
    have hext : tableExtends fs
        (updateObj
          (updateObj
            { fs with
                table := (fs.fresh, ({ ftype := FType.symlink } : FileBase)) :: fs.table
                fresh := fs.fresh + 1 }
            dirId
            (fun d =>
              { d with entries := d.entries ++ [(last, (fs.fresh, FType.symlink))] }))
          fs.fresh
          (fun o =>
            { o with uid := u, gid := g, nlink := 1
                     mode := S_IFLNK ||| 0o755, target := t })) := by
      constructor
      · rfl
      · intro j fb0 hj
        have hjne : j ≠ fs.fresh := fun h => hfresh (h ▸ lookup_mem_keys hj)
        rw [updateObj_lookup, updateObj_lookup]
        have h1 : ({ fs with
            table := (fs.fresh, ({ ftype := FType.symlink } : FileBase)) :: fs.table
            fresh := fs.fresh + 1 } : FileSystem).table.lookup j = some fb0 := by
          rw [List.lookup_cons]
          have hb : (j == fs.fresh) = false := by simp [hjne]
          rw [hb]
          exact hj
        rw [h1]
        by_cases hjd : j = dirId
        · subst hjd
          exact ⟨{ fb0 with
              entries := fb0.entries ++ [(last, (fs.fresh, FType.symlink))] },
            by simp [hjne], rfl, [(last, (fs.fresh, FType.symlink))], rfl⟩
        · exact ⟨fb0, by simp [hjne, hjd], rfl, [], by simp⟩
    have hob2 : open_base_dir
        (updateObj
          (updateObj
            { fs with
                table := (fs.fresh, ({ ftype := FType.symlink } : FileBase)) :: fs.table
                fresh := fs.fresh + 1 }
            dirId
            (fun d =>
              { d with entries := d.entries ++ [(last, (fs.fresh, FType.symlink))] }))
          fs.fresh
          (fun o =>
            { o with uid := u, gid := g, nlink := 1
                     mode := S_IFLNK ||| 0o755, target := t }))
        (split p '/') = .ok (dirId, last) := open_base_dir_mono hext hbase
    have hlkd2 : (updateObj
        (updateObj
          { fs with
              table := (fs.fresh, ({ ftype := FType.symlink } : FileBase)) :: fs.table
              fresh := fs.fresh + 1 }
          dirId
          (fun d =>
            { d with entries := d.entries ++ [(last, (fs.fresh, FType.symlink))] }))
        fs.fresh
        (fun o =>
          { o with uid := u, gid := g, nlink := 1
                   mode := S_IFLNK ||| 0o755, target := t })
          : FileSystem).table.lookup dirId
        = some ({ dfb with
            entries := dfb.entries ++ [(last, (fs.fresh, FType.symlink))] }) := by
      rw [updateObj_lookup, updateObj_lookup]
      have h1 : ({ fs with
          table := (fs.fresh, ({ ftype := FType.symlink } : FileBase)) :: fs.table
          fresh := fs.fresh + 1 } : FileSystem).table.lookup dirId = some dfb := by
        rw [List.lookup_cons]
        have hb : (dirId == fs.fresh) = false := by simp [Ne.symm hne_id]
        rw [hb]
        exact hdfb
      rw [h1]
      simp [Ne.symm hne_id]
    have hgd2 : dir_get_entry
        (updateObj
          (updateObj
            { fs with
                table := (fs.fresh, ({ ftype := FType.symlink } : FileBase)) :: fs.table
                fresh := fs.fresh + 1 }
            dirId
            (fun d =>
              { d with entries := d.entries ++ [(last, (fs.fresh, FType.symlink))] }))
          fs.fresh
          (fun o =>
            { o with uid := u, gid := g, nlink := 1
                     mode := S_IFLNK ||| 0o755, target := t }))
        dirId last = some (fs.fresh, FType.symlink) := by
      unfold dir_get_entry
      rw [hlkd2]
      simp only []
      show ((dfb.entries ++ [(last, (fs.fresh, FType.symlink))]).lookup last) = _
      rw [lookup_append_none _ hfree]
      simp [List.lookup_cons]
    have hoa : open_all
        (updateObj
          (updateObj
            { fs with
                table := (fs.fresh, ({ ftype := FType.symlink } : FileBase)) :: fs.table
                fresh := fs.fresh + 1 }
            dirId
            (fun d =>
              { d with entries := d.entries ++ [(last, (fs.fresh, FType.symlink))] }))
          fs.fresh
          (fun o =>
            { o with uid := u, gid := g, nlink := 1
                     mode := S_IFLNK ||| 0o755, target := t }))
        (split p '/') = .ok fs.fresh := by
      unfold open_all
      rw [hob2]
      simp only []
      rw [if_neg hlast, hgd2]
      exact table_open_as_of_lookup hlkf2 rfl
    unfold fuse_readlink
    rw [if_neg (by omega), hoa]
    simp only []
    have hgt2 : getType
        (updateObj
          (updateObj
            { fs with
                table := (fs.fresh, ({ ftype := FType.symlink } : FileBase)) :: fs.table
                fresh := fs.fresh + 1 }
            dirId
            (fun d =>
              { d with entries := d.entries ++ [(last, (fs.fresh, FType.symlink))] }))
          fs.fresh
          (fun o =>
            { o with uid := u, gid := g, nlink := 1
                     mode := S_IFLNK ||| 0o755, target := t }))
        fs.fresh = some FType.symlink := by
      simp [getType, hlkf2]
    rw [if_neg (by simp [hgt2])]
    rw [hlkf2]
    simp
  · intro hlen hnul
    have hmin : min t.data.length (size - 1) = t.data.length := min_eq_left hlen
    rw [hmin, List.take_of_length_le hlen]
    unfold cstringOf
    rw [takeWhile_append_replicate]
    intro c hc
    simp only [bne_iff_ne, ne_eq]
    intro hcn
    exact hnul (hcn ▸ hc)

theorem symlink_readlink_witness :
    fsSample.readonly = false
    ∧ open_base_dir fsSample (split "/s" '/') = .ok (0, "s")
    ∧ ("s" : String) ≠ ""
    ∧ fsSample.table.lookup 0 = some rootWithX
    ∧ rootWithX.entries.lookup "s" = none
    ∧ fsSample.fresh ∉ fsSample.table.map Prod.fst
    ∧ (0 : Nat) < 10
    ∧ ∃ fs2, fuse_symlink fsSample 3 4 "target" "/s" = (0, fs2)
        ∧ fuse_readlink fs2 "/s" 10
            = (0, ("target" : String).data.take (10 - 1)
                  ++ List.replicate
                      (10 - min ("target" : String).data.length (10 - 1))
                      (Char.ofNat 0))
        ∧ (("target" : String).data.length ≤ 10 - 1 →
            Char.ofNat 0 ∉ ("target" : String).data →
            cstringOf (("target" : String).data.take (10 - 1)
              ++ List.replicate
                  (10 - min ("target" : String).data.length (10 - 1))
                  (Char.ofNat 0)) = "target") :=
  ⟨rfl, by rfl, by decide, by rfl, by rfl, by decide, by decide,
    symlink_readlink fsSample 3 4 "target" "/s" 10 0 "s" rootWithX rfl (by rfl)
      (by decide) (by rfl) (by rfl) (by decide) (by decide)⟩
